import Mathlib

/-!
Shallow embedding of the page-addressable PDF transformation engine of the
pdf-service repository (src/app.py and src/services/*.py), together with
theorems checking the specification's claims about it.

Conventions of the embedding:
* A Python function becomes a Lean function over the data it actually
  inspects.  Filesystem effects are made explicit: an operation that writes
  files during a loop returns the list of artifacts written so far together
  with the error, while an operation that only writes after all checks
  returns an `Except` whose `.error` case means no artifact was created.
* Python `int` values are `Int`; page counts are `Nat`.
* A raised Python exception becomes an error constructor named after the
  specification's error taxonomy; each constructor's doc comment points at
  the raise site it models.
* Output artifact filenames carry no information beyond the page spans that
  appear in them, so an output is modelled by its page span (or page
  number); the zero-padded name itself is elided.
-/

namespace PdfService

/-! ## Selection parser (src/app.py, `parse_page_numbers`)

The Python code works on `str`; the embedding works on `List Char` (a
`String` is converted through `String.data`) with structurally recursive
versions of the string primitives used by the source, so that every
definition evaluates inside the kernel.
-/

/-- Characters of the input with every space removed: models
`pages_input.replace(' ', '')` at src/app.py:389. -/
def stripSpaces (s : List Char) : List Char :=
  s.filter (fun c => c ≠ ' ')

/-- Splitting a character list at a separator character: models Python
`str.split(sep)` for a one-character separator (src/app.py:389 splits on
`','`, src/app.py:394 splits on `'-'`).  Like Python, an empty input yields
`[[]]` and separators at the edges yield empty components. -/
def splitOnChar (c : Char) : List Char → List (List Char)
  | [] => [[]]
  | x :: xs =>
    let r := splitOnChar c xs
    if x = c then [] :: r
    else
      match r with
      | y :: ys => (x :: y) :: ys
      | [] => [[x]]

/-- Python `int(tok)` on the tokens reachable in `parse_page_numbers`: the
components of the comma/hyphen splits contain no `'-'` and spaces were
already removed, so a token parses exactly when it is a non-empty string of
decimal digits; `none` models the `ValueError` raised otherwise (the spec's
`MalformedSelection`). -/
def digitsToNat? (s : List Char) : Option Nat :=
  if s = [] then none
  else if s.all (fun c => c.isDigit) then
    some (s.foldl (fun a c => 10 * a + (c.toNat - '0'.toNat)) 0)
  else none

/-- Python `range(a, b + 1)` as a list: every integer from `a` to `b`
inclusive, empty when `b < a` (src/app.py:395). -/
def rangeList (a b : Int) : List Int :=
  (List.range (b + 1 - a).toNat).map (fun (i : Nat) => a + (i : Int))

/-- One `part` of the comma-split input, as handled by the loop body of
`parse_page_numbers` (src/app.py:391-398): a part containing `'-'` is split
at `'-'` into exactly two integer components `start`, `end` and contributes
`range(start, end + 1)`; any other split shape or component fails (the
`ValueError` of `int`/tuple unpacking).  A part without `'-'` contributes
the single integer it spells. -/
def parsePart (part : List Char) : Option (List Int) :=
  if part.contains '-' then
    match splitOnChar '-' part with
    | [s1, s2] =>
      match digitsToNat? s1, digitsToNat? s2 with
      | some a, some b => some (rangeList (a : Int) (b : Int))
      | _, _ => none
    | _ => none
  else
    (digitsToNat? part).map (fun n => [(n : Int)])

/-- Runs `parsePart` over every comma-separated part in order, collecting
the contributed value lists; models the `for part in parts` loop of
`parse_page_numbers`, whose first `ValueError` aborts the whole parse. -/
def parsePartsAll : List (List Char) → Option (List (List Int))
  | [] => some []
  | p :: ps =>
    match parsePart p, parsePartsAll ps with
    | some vs, some rest => some (vs :: rest)
    | _, _ => none

/-- The selection parser `parse_page_numbers` (src/app.py:386-400): strip
spaces, split on commas, expand each token, then return
`sorted(list(set(page_numbers)))`.  The final set-then-sort is modelled as
`dedup` followed by `insertionSort`: both produce the unique duplicate-free
ascending enumeration of the collected values. -/
def parse_page_numbers (pages_input : String) : Option (List Int) :=
  let parts := splitOnChar ',' (stripSpaces pages_input.data)
  (parsePartsAll parts).map (fun ls => List.insertionSort (· ≤ ·) ls.flatten.dedup)

/-! ## Split engine (src/services/pdf_splitter.py) -/

/-- Error outcomes of the split service; each constructor models one raise
site in src/services/pdf_splitter.py (the spec's taxonomy names are used).
`outOfRangePage` is the `ValueError` of src/services/pdf_splitter.py:42,
`invalidRange` that of line 93, `invalidChunkSize` that of line 132, and
`noBookmarks` that of line 195. -/
inductive SplitError where
  | outOfRangePage (p : Int)
  | invalidRange (s e : Int)
  | invalidChunkSize
  | noBookmarks
deriving DecidableEq

/-- First entry of `page_numbers` outside `[1, max_pages]`: models the
validation loop of `split_by_pages` (src/services/pdf_splitter.py:40-42),
which raises at the first offending value. -/
def firstInvalidPage (max_pages : Nat) : List Int → Option Int
  | [] => none
  | p :: ps =>
    if p < 1 ∨ (max_pages : Int) < p then some p
    else firstInvalidPage max_pages ps

/-- The split-by-pages service `split_by_pages`
(src/services/pdf_splitter.py:15-64): the validation loop runs over the
whole selection before the extraction loop writes anything, so an invalid
entry yields an error with zero outputs; otherwise one single-page output
is written per selected page number, in the order of the selection.  An
output is modelled by the 1-indexed page it contains (filename
`page_{n:03d}.pdf` elided). -/
def split_by_pages (max_pages : Nat) (page_numbers : List Int) :
    Except SplitError (List Int) :=
  match firstInvalidPage max_pages page_numbers with
  | some p => .error (.outOfRangePage p)
  | none => .ok page_numbers

/-- The split-by-range service `split_by_range`
(src/services/pdf_splitter.py:66-113).  Its single loop validates each
range and then immediately saves that range's output file before moving to
the next range, so the model returns both the outputs already written to
disk (in order) and the error, if any.  An output is modelled by its
1-indexed inclusive `(start, end)` span (filename
`pages_{start:03d}-{end:03d}.pdf` elided). -/
def split_by_range (max_pages : Nat) :
    List (Int × Int) → List (Int × Int) × Option SplitError
  | [] => ([], none)
  | (s, e) :: rest =>
    if s < 1 ∨ (max_pages : Int) < e ∨ e < s then
      ([], some (.invalidRange s e))
    else
      let r := split_by_range max_pages rest
      ((s, e) :: r.1, r.2)

/-- A range satisfying the validation condition of `split_by_range`
(src/services/pdf_splitter.py:92): `start ≥ 1`, `end ≤ max_pages`,
`start ≤ end`. -/
def validRange (max_pages : Nat) (r : Int × Int) : Prop :=
  1 ≤ r.1 ∧ r.2 ≤ (max_pages : Int) ∧ r.1 ≤ r.2

instance (max_pages : Nat) (r : Int × Int) : Decidable (validRange max_pages r) := by
  unfold validRange
  exact inferInstance

/-- The split-every-n-pages service `split_every_n_pages`
(src/services/pdf_splitter.py:115-167): after the `n_pages < 1` check, the
number of files is `(total_pages + n_pages - 1) // n_pages` and file `i`
(0-indexed) spans 0-indexed pages `i*n` to `min((i+1)*n - 1, total - 1)`.
Outputs are modelled by the corresponding 1-indexed inclusive spans, as in
the output filename `part_{i+1:03d}_pages_{start+1:03d}-{end+1:03d}.pdf`. -/
def split_every_n_pages (total_pages : Nat) (n_pages : Int) :
    Except SplitError (List (Nat × Nat)) :=
  if n_pages < 1 then .error .invalidChunkSize
  else
    let n := n_pages.toNat
    let num_files := (total_pages + n - 1) / n
    .ok ((List.range num_files).map fun i =>
      (i * n + 1, min ((i + 1) * n - 1) (total_pages - 1) + 1))

/-- One entry of the table of contents as returned by `get_toc()`:
`(level, title, page)` with a 1-indexed target page. -/
structure BookmarkEntry where
  level : Int
  title : String
  targetPage : Int
deriving DecidableEq

/-- The split-by-bookmarks service `split_by_bookmarks`
(src/services/pdf_splitter.py:169-227): an empty table of contents raises
(`noBookmarks`); otherwise, for each entry `i`, the code passes
`from_page = page_num - 1` and `to_page = end_page` to `insert_pdf`, where
`end_page` is `toc[i+1][2] - 1` for a non-last entry and `page_count - 1`
for the last (lines 204-211).  Both arguments of `insert_pdf` are 0-indexed
inclusive bounds, so an output is modelled by exactly that 0-indexed
`(from_page, to_page)` pair.  Title sanitization only affects the filename
and is elided. -/
def split_by_bookmarks (page_count : Nat) (toc : List BookmarkEntry) :
    Except SplitError (List (Int × Int)) :=
  if toc.length = 0 then .error .noBookmarks
  else
    .ok ((List.range toc.length).map fun i =>
      let page_num := (toc.getD i ⟨0, "", 0⟩).targetPage
      let end_page : Int :=
        if i + 1 < toc.length then (toc.getD (i + 1) ⟨0, "", 0⟩).targetPage - 1
        else (page_count : Int) - 1
      (page_num - 1, end_page))

/-! ## Merge engine (src/services/pdf_merger.py and the /merge route) -/

/-- An input document as the merge code observes it: whether the saved file
exists on disk, the reader's encryption flag, and its pages (page contents
abstracted as plain identifiers). -/
structure InputDoc where
  fileOnDisk : Bool
  isEncrypted : Bool
  pages : List Nat
deriving DecidableEq

/-- Error outcomes of the merge path.  `fileNotFound` models the raise at
src/services/pdf_merger.py:25, `encryptedInputRejected` the raise at line
32 (the spec's `EncryptedInputRejected`), and `insufficientInputs` the
rejection at src/app.py:57-59 (the spec's `InsufficientInputs`). -/
inductive MergeError where
  | fileNotFound
  | encryptedInputRejected
  | insufficientInputs
deriving DecidableEq

/-- The reading loop of `merge_pdfs` (src/services/pdf_merger.py:23-36):
each input file is checked for existence and encryption and its pages are
appended to the in-memory `PdfWriter`, in input order.  The output file is
written only after the loop completes (lines 39-40), so an error anywhere
in the loop means the output artifact is never created; `.ok` carries the
page sequence that the single output file then receives. -/
def mergeLoop (acc : List Nat) : List InputDoc → Except MergeError (List Nat)
  | [] => .ok acc
  | d :: rest =>
    if d.fileOnDisk = false then .error .fileNotFound
    else if d.isEncrypted then .error .encryptedInputRejected
    else mergeLoop (acc ++ d.pages) rest

/-- The merge service `merge_pdfs` (src/services/pdf_merger.py:12-46). -/
def merge_pdfs (input_files : List InputDoc) : Except MergeError (List Nat) :=
  mergeLoop [] input_files

/-- The POST handler of the /merge route (src/app.py:46-99), which is the
entry point of the merge operation: fewer than two uploaded files are
rejected (src/app.py:57-59) before anything is saved or merged; otherwise
the saved files are handed to `PDFMerger.merge_pdfs`.  The service function
itself contains no input-count check — the guard lives only in the route. -/
def merge_route (files : List InputDoc) : Except MergeError (List Nat) :=
  if files.length < 2 then .error .insufficientInputs
  else merge_pdfs files

/-! ## Compression orchestrator (src/services/pdf_compressor.py) -/

/-- Error outcomes of `compress_pdf`; each constructor models one raise
site in src/services/pdf_compressor.py. `unsupportedQuality` is line 46,
`backendUnavailable` line 50 (Ghostscript not installed), `backendTimeout`
line 111 (`subprocess.TimeoutExpired`), `backendFailed` line 103 (non-zero
return code), and `emptyOutput` line 106 (output file not created) — the
spec's `EmptyOutput`. -/
inductive CompressError where
  | fileNotFound
  | unsupportedQuality (q : String)
  | backendUnavailable
  | backendTimeout
  | backendFailed
  | emptyOutput
deriving DecidableEq

/-- Observable outcome of the Ghostscript subprocess invocation
(src/services/pdf_compressor.py:100): whether the 60-second timeout
expired, the return code, and whether the output file exists afterwards and
with how many bytes.  The byte size is part of the observable state even
though the source never reads it. -/
structure GsRun where
  timedOut : Bool
  returncode : Int
  outputOnDisk : Bool
  outputSize : Nat
deriving DecidableEq

/-- The compression service `compress_pdf`
(src/services/pdf_compressor.py:29-113): input-existence check, quality
check against the keys of `quality_settings` (`low`, `medium`, `high`),
Ghostscript-availability check, then the run; afterwards a timeout raises,
a non-zero return code raises, and the only post-condition check is
`os.path.exists(output_path)` (line 105) — the size of the output file is
never inspected. -/
def compress_pdf (inputOnDisk : Bool) (quality : String) (gsInstalled : Bool)
    (run : GsRun) : Except CompressError Bool :=
  if inputOnDisk = false then .error .fileNotFound
  else if quality ∉ (["low", "medium", "high"] : List String) then
    .error (.unsupportedQuality quality)
  else if gsInstalled = false then .error .backendUnavailable
  else if run.timedOut then .error .backendTimeout
  else if run.returncode ≠ 0 then .error .backendFailed
  else if run.outputOnDisk = false then .error .emptyOutput
  else .ok true

/-! ## Conversion orchestrator (src/services/pdf_converter.py) -/

/-- The page loop of `pdf_to_text` (src/services/pdf_converter.py:164-170):
starting from the empty string, the loop visits pages in page order
0..page_count-1 and appends `page.get_text()` and then `"\n\n"` — the
separator is appended after every page, including the last.  The extracted
text of each page is abstracted as a given list of page strings, in page
order. -/
def pdf_to_text (pageTexts : List String) : String :=
  pageTexts.foldl (fun acc t => acc ++ t ++ "\n\n") ""

/-! ## Support lemmas -/

/-- Membership in `rangeList a b` is exactly the inclusive interval
`[a, b]`. -/
theorem mem_rangeList {a b x : Int} : x ∈ rangeList a b ↔ a ≤ x ∧ x ≤ b := by
  constructor
  · intro hx
    simp only [rangeList, List.mem_map, List.mem_range] at hx
    obtain ⟨i, hi, rfl⟩ := hx
    omega
  · rintro ⟨h1, h2⟩
    simp only [rangeList, List.mem_map, List.mem_range]
    exact ⟨(x - a).toNat, by omega, by omega⟩

/-- An inverted range contributes no values: Python `range(a, b + 1)` is
empty when `b < a`. -/
theorem rangeList_eq_nil {a b : Int} (h : b < a) : rangeList a b = [] := by
  unfold rangeList
  rw [show (b + 1 - a).toNat = 0 by omega]
  rfl

/-- Membership in the concatenation of all token contributions collected by
`parsePartsAll`. -/
theorem mem_flatten_parsePartsAll {ps : List (List Char)} {ls : List (List Int)}
    (h : parsePartsAll ps = some ls) (x : Int) :
    x ∈ ls.flatten ↔ ∃ p ∈ ps, ∃ vs, parsePart p = some vs ∧ x ∈ vs := by
  induction ps generalizing ls with
  | nil =>
    simp only [parsePartsAll, Option.some.injEq] at h
    subst h
    simp
  | cons p ps ih =>
    simp only [parsePartsAll] at h
    cases hp : parsePart p with
    | none => rw [hp] at h; exact absurd h (by simp)
    | some vs =>
      rw [hp] at h
      cases hps : parsePartsAll ps with
      | none => rw [hps] at h; exact absurd h (by simp)
      | some rest =>
        rw [hps] at h
        simp only [Option.some.injEq] at h
        subst h
        simp only [List.flatten_cons, List.mem_append, ih hps, List.mem_cons]
        constructor
        · rintro (hx | ⟨q, hq, ws, hws, hxw⟩)
          · exact ⟨p, Or.inl rfl, vs, hp, hx⟩
          · exact ⟨q, Or.inr hq, ws, hws, hxw⟩
        · rintro ⟨q, hq | hq, ws, hws, hxw⟩
          · subst hq
            rw [hp] at hws
            cases hws
            exact Or.inl hxw
          · exact Or.inr ⟨q, hq, ws, hws, hxw⟩

/-- When every token contributes the empty list, the collection loop
succeeds and collects nothing. -/
theorem parsePartsAll_of_all_empty :
    ∀ ps : List (List Char), (∀ p ∈ ps, parsePart p = some []) →
      ∃ ls, parsePartsAll ps = some ls ∧ ls.flatten = []
  | [], _ => ⟨[], rfl, rfl⟩
  | p :: ps, h => by
    obtain ⟨ls, h1, h2⟩ :=
      parsePartsAll_of_all_empty ps (fun q hq => h q (List.mem_cons_of_mem _ hq))
    refine ⟨[] :: ls, ?_, by simp [h2]⟩
    simp [parsePartsAll, h p (List.mem_cons_self _ _), h1]

/-! ## Claims about the selection parser -/

/-- C5: for every selection string accepted by `parse_page_numbers`, the
result is a strictly ascending (hence duplicate-free) sequence whose
members are exactly the union of the values contributed by the
comma-separated tokens, where a range token contributes (via `rangeList`)
every integer of the inclusive interval and duplicates across tokens
collapse silently. -/
theorem parse_page_numbers_ascending_union (s : String) (l : List Int)
    (h : parse_page_numbers s = some l) :
    l.Sorted (· < ·) ∧
    (∀ x : Int, x ∈ l ↔
      ∃ p ∈ splitOnChar ',' (stripSpaces s.data),
        ∃ vs, parsePart p = some vs ∧ x ∈ vs) ∧
    (∀ a b x : Int, x ∈ rangeList a b ↔ a ≤ x ∧ x ≤ b) := by
  unfold parse_page_numbers at h
  rw [Option.map_eq_some'] at h
  obtain ⟨ls, hls, rfl⟩ := h
  have hperm := List.perm_insertionSort (fun x y : Int => x ≤ y) ls.flatten.dedup
  refine ⟨?_, ?_, fun a b x => mem_rangeList⟩
  · exact (List.sorted_insertionSort _ _).lt_of_le
      (hperm.nodup_iff.mpr (List.nodup_dedup _))
  · intro x
    rw [hperm.mem_iff, List.mem_dedup]
    exact mem_flatten_parsePartsAll hls x

/-- Witness for C5 at the specification's own example `"1-3,2-4"`, whose
parse is `[1, 2, 3, 4]`. -/
theorem parse_page_numbers_ascending_union_witness :
    ([1, 2, 3, 4] : List Int).Sorted (· < ·) ∧
    (∀ x : Int, x ∈ ([1, 2, 3, 4] : List Int) ↔
      ∃ p ∈ splitOnChar ',' (stripSpaces "1-3,2-4".data),
        ∃ vs, parsePart p = some vs ∧ x ∈ vs) ∧
    (∀ a b x : Int, x ∈ rangeList a b ↔ a ≤ x ∧ x ≤ b) :=
  parse_page_numbers_ascending_union "1-3,2-4" [1, 2, 3, 4] (by decide)

/-- C10: a range token whose two components parse as integers with
start > end contributes no page numbers instead of failing, so a selection
consisting only of inverted range tokens parses successfully to the empty
selection. -/
theorem parse_page_numbers_inverted_ranges (s : String)
    (h : ∀ p ∈ splitOnChar ',' (stripSpaces s.data),
      ∃ a b : Int, parsePart p = some (rangeList a b) ∧ b < a) :
    (∀ a b : Int, b < a → rangeList a b = []) ∧
    parse_page_numbers s = some [] := by
  refine ⟨fun a b hb => rangeList_eq_nil hb, ?_⟩
  obtain ⟨ls, h1, h2⟩ := parsePartsAll_of_all_empty
    (splitOnChar ',' (stripSpaces s.data)) (fun p hp => by
      obtain ⟨a, b, hab, hba⟩ := h p hp
      rw [hab, rangeList_eq_nil hba])
  have hdef : parse_page_numbers s =
      Option.map (fun ls => List.insertionSort (fun x y : Int => x ≤ y) ls.flatten.dedup)
        (parsePartsAll (splitOnChar ',' (stripSpaces s.data))) := rfl
  rw [hdef, h1]
  simp [h2]

/-- Witness for C10 at the selection `"5-3,10-2"` made of two inverted
range tokens. -/
theorem parse_page_numbers_inverted_ranges_witness :
    (∀ a b : Int, b < a → rangeList a b = []) ∧
    parse_page_numbers "5-3,10-2" = some [] :=
  parse_page_numbers_inverted_ranges "5-3,10-2" (by
    intro p hp
    have hp' : p ∈ [['5', '-', '3'], ['1', '0', '-', '2']] := hp
    simp only [List.mem_cons, List.mem_singleton] at hp'
    rcases hp' with rfl | rfl | h
    · exact ⟨5, 3, by decide, by decide⟩
    · exact ⟨10, 2, by decide, by decide⟩
    · exact absurd h (List.not_mem_nil p))

/-! ## Claims about the split engine -/

/-- When every entry of the list is a page of the document, the validation
loop of `split_by_pages` finds nothing. -/
theorem firstInvalidPage_eq_none {m : Nat} {l : List Int}
    (h : ∀ p ∈ l, 1 ≤ p ∧ p ≤ (m : Int)) : firstInvalidPage m l = none := by
  induction l with
  | nil => rfl
  | cons p ps ih =>
    have hp := h p (List.mem_cons_self _ _)
    unfold firstInvalidPage
    rw [if_neg (by omega)]
    exact ih (fun q hq => h q (List.mem_cons_of_mem _ hq))

/-- The validation loop of `split_by_pages` raises at the first offending
entry: if the entries before position `k` are in range and the entry at `k`
is not, that entry is reported. -/
theorem firstInvalidPage_eq_some {m : Nat} (l : List Int) (k : Nat) (hk : k < l.length)
    (hpre : ∀ p ∈ l.take k, 1 ≤ p ∧ p ≤ (m : Int))
    (hbad : l.get ⟨k, hk⟩ < 1 ∨ (m : Int) < l.get ⟨k, hk⟩) :
    firstInvalidPage m l = some (l.get ⟨k, hk⟩) := by
  induction l generalizing k with
  | nil => exact absurd hk (by simp)
  | cons p ps ih =>
    cases k with
    | zero =>
      have hbad' : p < 1 ∨ (m : Int) < p := hbad
      unfold firstInvalidPage
      rw [if_pos hbad']
      rfl
    | succ k =>
      have hp : 1 ≤ p ∧ p ≤ (m : Int) :=
        hpre p (by rw [List.take_succ_cons]; exact List.mem_cons_self _ _)
      unfold firstInvalidPage
      rw [if_neg (by omega)]
      exact ih k (Nat.lt_of_succ_lt_succ hk)
        (fun q hq => hpre q (by rw [List.take_succ_cons]; exact List.mem_cons_of_mem _ hq))
        hbad

/-- C2: `split_by_pages` validates the whole selection before extracting
anything.  If the entry at position `k` lies outside `[1, max_pages]` and
every earlier entry is in range, the call fails with `outOfRangePage`
naming that first offending value and produces zero outputs; if every
entry is in range, it produces one single-page output per selected page
number, in selection order. -/
theorem split_by_pages_validate_first (max_pages : Nat) (sel : List Int) :
    (∀ k (hk : k < sel.length),
      (∀ p ∈ sel.take k, 1 ≤ p ∧ p ≤ (max_pages : Int)) →
      (sel.get ⟨k, hk⟩ < 1 ∨ (max_pages : Int) < sel.get ⟨k, hk⟩) →
      split_by_pages max_pages sel = .error (.outOfRangePage (sel.get ⟨k, hk⟩))) ∧
    ((∀ p ∈ sel, 1 ≤ p ∧ p ≤ (max_pages : Int)) →
      split_by_pages max_pages sel = .ok sel) := by
  constructor
  · intro k hk hpre hbad
    unfold split_by_pages
    rw [firstInvalidPage_eq_some sel k hk hpre hbad]
  · intro h
    unfold split_by_pages
    rw [firstInvalidPage_eq_none h]

/-- Witness for C2 at the specification's own example: a five-page
document with selection `[1, 6]` fails naming page 6. -/
theorem split_by_pages_validate_first_witness :
    split_by_pages 5 [1, 6] = .error (.outOfRangePage 6) :=
  (split_by_pages_validate_first 5 [1, 6]).1 1 (by decide) (by decide) (by decide)

/-- C1 counterexample: on a two-page document with ranges
`[(1,1), (3,1)]`, `split_by_range` does fail with `invalidRange` at the
first violating range, but the output for the earlier valid range `(1,1)`
has already been written when it fails — the claim's "writes no output
artifact at all" is false. -/
theorem split_by_range_earlier_output_written :
    split_by_range 2 [(1, 1), (3, 1)] = ([(1, 1)], some (.invalidRange 3 1)) ∧
    (split_by_range 2 [(1, 1), (3, 1)]).1 ≠ [] := by decide

/-- When every range is valid, `split_by_range` writes one output per
range, in input order, and reports no error. -/
theorem split_by_range_all_valid {m : Nat} {rs : List (Int × Int)}
    (h : ∀ r ∈ rs, validRange m r) : split_by_range m rs = (rs, none) := by
  induction rs with
  | nil => rfl
  | cons r rest ih =>
    obtain ⟨s, e⟩ := r
    have hr : 1 ≤ s ∧ e ≤ (m : Int) ∧ s ≤ e := h (s, e) (List.mem_cons_self _ _)
    unfold split_by_range
    rw [if_neg (by omega)]
    simp [ih (fun q hq => h q (List.mem_cons_of_mem _ hq))]

/-- When the range at position `k` is the first invalid one,
`split_by_range` stops there with `invalidRange`, leaving exactly the
outputs of the `k` earlier (valid) ranges written. -/
theorem split_by_range_stops {m : Nat} (rs : List (Int × Int)) (k : Nat)
    (hk : k < rs.length)
    (hpre : ∀ r ∈ rs.take k, validRange m r)
    (hbad : ¬ validRange m (rs.get ⟨k, hk⟩)) :
    split_by_range m rs =
      (rs.take k,
        some (.invalidRange (rs.get ⟨k, hk⟩).1 (rs.get ⟨k, hk⟩).2)) := by
  induction rs generalizing k with
  | nil => exact absurd hk (by simp)
  | cons r rest ih =>
    obtain ⟨s, e⟩ := r
    cases k with
    | zero =>
      have hbad' : ¬ (1 ≤ s ∧ e ≤ (m : Int) ∧ s ≤ e) := hbad
      unfold split_by_range
      rw [if_pos (by omega)]
      rfl
    | succ k =>
      have hr : 1 ≤ s ∧ e ≤ (m : Int) ∧ s ≤ e :=
        hpre (s, e) (by rw [List.take_succ_cons]; exact List.mem_cons_self _ _)
      unfold split_by_range
      rw [if_neg (by omega)]
      have hrec := ih k (Nat.lt_of_succ_lt_succ hk)
        (fun q hq => hpre q (by rw [List.take_succ_cons]; exact List.mem_cons_of_mem _ hq))
        hbad
      rw [List.take_succ_cons]
      simp [hrec]

/-- C1 amended: for each range in input order, `split_by_range` validates
`1 ≤ start ≤ end ≤ pageCount` and fails with `invalidRange` at the first
violating range, processing no later range — but because each valid range's
output is written before the next range is examined, the outputs for the
ranges preceding the first violation exist after the failure (take `k` of
the input); only an all-valid input leaves no error. -/
theorem split_by_range_first_violation (max_pages : Nat) (ranges : List (Int × Int)) :
    ((∀ r ∈ ranges, validRange max_pages r) →
      split_by_range max_pages ranges = (ranges, none)) ∧
    (∀ k (hk : k < ranges.length),
      (∀ r ∈ ranges.take k, validRange max_pages r) →
      ¬ validRange max_pages (ranges.get ⟨k, hk⟩) →
      split_by_range max_pages ranges =
        (ranges.take k,
          some (.invalidRange (ranges.get ⟨k, hk⟩).1 (ranges.get ⟨k, hk⟩).2))) :=
  ⟨fun h => split_by_range_all_valid h,
   fun k hk hpre hbad => split_by_range_stops ranges k hk hpre hbad⟩

/-- Witness for C1's amended statement on a two-page document: the second
range `(3,1)` is the first violation, and exactly the first range's output
remains. -/
theorem split_by_range_first_violation_witness :
    split_by_range 2 [(1, 1), (3, 1)] =
      ([(1, 1)], some (.invalidRange 3 1)) :=
  (split_by_range_first_violation 2 [(1, 1), (3, 1)]).2 1 (by decide) (by decide) (by decide)

/-- Unfolding of `split_every_n_pages` for a positive chunk size. -/
theorem split_every_n_pages_pos (total : Nat) (n : Int) (h : 1 ≤ n) :
    split_every_n_pages total n =
      .ok ((List.range ((total + n.toNat - 1) / n.toNat)).map fun i =>
        (i * n.toNat + 1, min ((i + 1) * n.toNat - 1) (total - 1) + 1)) := by
  unfold split_every_n_pages
  rw [if_neg (by omega)]

/-- C6: `split_every_n_pages` fails with `invalidChunkSize` when the chunk
size is below 1; otherwise it produces a list of outputs whose length is
the ceiling of `total / n` (characterised by its Galois property) and whose
0-indexed chunk `k` covers 1-indexed pages
`[k*n + 1, min((k+1)*n, total)]`. -/
theorem split_every_n_pages_chunks (total : Nat) (n : Int) :
    (n < 1 → split_every_n_pages total n = .error .invalidChunkSize) ∧
    (1 ≤ n → ∃ outs, split_every_n_pages total n = .ok outs ∧
      (∀ m : Nat, outs.length ≤ m ↔ total ≤ n.toNat * m) ∧
      (∀ k (hk : k < outs.length),
        outs.get ⟨k, hk⟩ = (k * n.toNat + 1, min ((k + 1) * n.toNat) total))) := by
  constructor
  · intro h
    unfold split_every_n_pages
    rw [if_pos h]
  · intro h
    have hn : 1 ≤ n.toNat := by omega
    refine ⟨_, split_every_n_pages_pos total n h, ?_, ?_⟩
    · intro m
      rw [List.length_map, List.length_range,
        Nat.div_le_iff_le_mul_add_pred (by omega)]
      omega
    · intro k hk
      rw [List.length_map, List.length_range] at hk
      have htot : 1 ≤ total := by
        rcases Nat.eq_zero_or_pos total with h0 | h1
        · subst h0
          rw [Nat.div_eq_of_lt (by omega)] at hk
          exact absurd hk (by omega)
        · exact h1
      rw [List.get_eq_getElem, List.getElem_map, List.getElem_range]
      have hmin : min ((k + 1) * n.toNat - 1) (total - 1) + 1
          = min ((k + 1) * n.toNat) total := by
        have : 0 < (k + 1) * n.toNat := Nat.mul_pos (Nat.succ_pos k) hn
        omega
      rw [hmin]

/-- Witness for C6 at the specification's own example: ten pages in chunks
of three give four outputs spanning pages 1-3, 4-6, 7-9 and 10-10. -/
theorem split_every_n_pages_chunks_witness :
    split_every_n_pages 10 3 = .ok [(1, 3), (4, 6), (7, 9), (10, 10)] ∧
    (∃ outs, split_every_n_pages 10 3 = .ok outs ∧
      (∀ m : Nat, outs.length ≤ m ↔ 10 ≤ (3 : Int).toNat * m) ∧
      (∀ k (hk : k < outs.length),
        outs.get ⟨k, hk⟩ = (k * (3 : Int).toNat + 1, min ((k + 1) * (3 : Int).toNat) 10))) :=
  ⟨rfl, (split_every_n_pages_chunks 10 3).2 (by decide)⟩

/-- C7 at a failing input: with ten pages and bookmarks targeting pages 1
and 5, `split_by_bookmarks` produces the 0-indexed inclusive spans
`(0, 4)` and `(4, 9)` — 1-indexed pages 1-5 and 5-10.  The first section
thus includes page 5, the second bookmark's target page, where the claim
(and the spec's `end = next.targetPage - 1`) requires the span `(0, 3)`
(1-indexed pages 1-4): the code computes `end_page = toc[i+1][2] - 1` from
the 1-indexed next target but passes it to `insert_pdf` as a 0-indexed
inclusive bound without the further `- 1` it applies everywhere else
(`from_page = page_num - 1`, last entry `end_page = page_count - 1`).  The
empty-outline case does fail with `noBookmarks` as claimed. -/
theorem split_by_bookmarks_overlap :
    split_by_bookmarks 10 [⟨1, "A", 1⟩, ⟨1, "B", 5⟩] = .ok [(0, 4), (4, 9)] ∧
    ((0, 4) : Int × Int) ≠ (0, 3) ∧
    split_by_bookmarks 10 [] = .error .noBookmarks :=
  ⟨rfl, by decide, rfl⟩

/-! ## Claims about the merge engine -/

/-- Whatever the accumulated pages, the reading loop of `merge_pdfs` stops
with `encryptedInputRejected` as soon as an encrypted input is reached,
provided every input file exists. -/
theorem mergeLoop_encrypted (acc : List Nat) (docs : List InputDoc)
    (hex : ∀ d ∈ docs, d.fileOnDisk = true)
    (henc : ∃ d ∈ docs, d.isEncrypted = true) :
    mergeLoop acc docs = .error .encryptedInputRejected := by
  induction docs generalizing acc with
  | nil => simp at henc
  | cons d rest ih =>
    have hd := hex d (List.mem_cons_self _ _)
    unfold mergeLoop
    rw [if_neg (by simp [hd])]
    by_cases he : d.isEncrypted
    · rw [if_pos he]
    · rw [if_neg he]
      apply ih
      · exact fun q hq => hex q (List.mem_cons_of_mem _ hq)
      · rcases henc with ⟨q, hq, hqe⟩
        rcases List.mem_cons.mp hq with rfl | hq'
        · exact absurd hqe (by simp [he])
        · exact ⟨q, hq', hqe⟩

/-- C3: if any input document is encrypted (at whatever position), the
merge fails with `encryptedInputRejected`; since the output file is only
written after the reading loop finishes, the failing call writes zero
output artifacts (there is no page sequence it returns as written). -/
theorem merge_pdfs_encrypted_rejected (docs : List InputDoc)
    (hex : ∀ d ∈ docs, d.fileOnDisk = true)
    (henc : ∃ d ∈ docs, d.isEncrypted = true) :
    merge_pdfs docs = .error .encryptedInputRejected ∧
    ∀ out, merge_pdfs docs ≠ .ok out := by
  have h : merge_pdfs docs = .error .encryptedInputRejected :=
    mergeLoop_encrypted [] docs hex henc
  exact ⟨h, fun out hout => Except.noConfusion (h.symm.trans hout)⟩

/-- Witness for C3 with the encrypted document in second (non-first)
position. -/
theorem merge_pdfs_encrypted_rejected_witness :
    merge_pdfs [⟨true, false, [0]⟩, ⟨true, true, [1]⟩] = .error .encryptedInputRejected ∧
    ∀ out, merge_pdfs [⟨true, false, [0]⟩, ⟨true, true, [1]⟩] ≠ .ok out :=
  merge_pdfs_encrypted_rejected [⟨true, false, [0]⟩, ⟨true, true, [1]⟩]
    (by decide) (by decide)

/-- C4: the merge operation rejects fewer than two input documents with
`insufficientInputs` and produces no output document.  The guard lives in
the /merge route (src/app.py:57-59), which is the operation's only entry
point; the `PDFMerger.merge_pdfs` service function itself has no such
check. -/
theorem merge_route_insufficient_inputs (files : List InputDoc)
    (h : files.length < 2) :
    merge_route files = .error .insufficientInputs ∧
    ∀ out, merge_route files ≠ .ok out := by
  have heq : merge_route files = .error .insufficientInputs := by
    unfold merge_route
    rw [if_pos h]
  exact ⟨heq, fun out hout => Except.noConfusion (heq.symm.trans hout)⟩

/-- Witness for C4 at a single-document input list. -/
theorem merge_route_insufficient_inputs_witness :
    merge_route [⟨true, false, [0]⟩] = .error .insufficientInputs ∧
    ∀ out, merge_route [⟨true, false, [0]⟩] ≠ .ok out :=
  merge_route_insufficient_inputs [⟨true, false, [0]⟩] (by decide)

/-! ## Claims about the compression orchestrator -/

/-- C8 counterexample: a run on which the backend reported success
(no timeout, return code 0) that left an existing but zero-byte output
file makes `compress_pdf` succeed — the claim says it must fail with
`emptyOutput`, but the code never inspects the output's size. -/
theorem compress_pdf_empty_output_accepted :
    compress_pdf true "medium" true ⟨false, 0, true, 0⟩ = .ok true ∧
    compress_pdf true "medium" true ⟨false, 0, true, 0⟩ ≠ .error .emptyOutput :=
  ⟨rfl, fun h => Except.noConfusion h⟩

/-- C8 amended: after the backend reports success (no timeout, return code
0) on an existing input with a supported quality tier, the only
post-condition check is that the output file exists: a missing output
fails with `emptyOutput` even though the backend reported success, while
an existing output passes the check whatever its size — in particular a
zero-byte output is accepted. -/
theorem compress_pdf_checks_existence_only (q : String) (r : GsRun)
    (hq : q ∈ (["low", "medium", "high"] : List String))
    (ht : r.timedOut = false) (hrc : r.returncode = 0) :
    (r.outputOnDisk = false → compress_pdf true q true r = .error .emptyOutput) ∧
    (r.outputOnDisk = true → compress_pdf true q true r = .ok true) := by
  constructor
  · intro hd
    unfold compress_pdf
    rw [if_neg (by simp), if_neg (by simp [hq]), if_neg (by simp),
      if_neg (by simp [ht]), if_neg (by simp [hrc]), if_pos hd]
  · intro hd
    unfold compress_pdf
    rw [if_neg (by simp), if_neg (by simp [hq]), if_neg (by simp),
      if_neg (by simp [ht]), if_neg (by simp [hrc]), if_neg (by simp [hd])]

/-- Witness for C8's amended statement at quality `"medium"` and a
successful run that left an existing zero-byte output. -/
theorem compress_pdf_checks_existence_only_witness :
    ((⟨false, 0, true, 0⟩ : GsRun).outputOnDisk = false →
      compress_pdf true "medium" true ⟨false, 0, true, 0⟩ = .error .emptyOutput) ∧
    ((⟨false, 0, true, 0⟩ : GsRun).outputOnDisk = true →
      compress_pdf true "medium" true ⟨false, 0, true, 0⟩ = .ok true) :=
  compress_pdf_checks_existence_only "medium" ⟨false, 0, true, 0⟩ (by decide) rfl rfl

/-! ## Claims about the conversion orchestrator -/

/-- C9 counterexample: on two pages with texts `"a"` and `"b"`,
`pdf_to_text` returns `"a\n\nb\n\n"`, with the blank-line separator also
after the final page, not the claim's `"a\n\nb"` (separator only between
consecutive pages). -/
theorem pdf_to_text_trailing_separator :
    pdf_to_text ["a", "b"] = "a\n\nb\n\n" ∧
    pdf_to_text ["a", "b"] ≠ "a\n\nb" := by decide

/-- Folding the page loop from any already-accumulated text prepends that
text to the result of folding from the empty string. -/
theorem pdf_to_text_foldl (acc : String) (l : List String) :
    l.foldl (fun a t => a ++ t ++ "\n\n") acc =
      acc ++ l.foldl (fun a t => a ++ t ++ "\n\n") "" := by
  induction l generalizing acc with
  | nil => simp [List.foldl]
  | cons t ts ih =>
    simp only [List.foldl]
    rw [ih (acc ++ t ++ "\n\n"), ih ("" ++ t ++ "\n\n"), String.empty_append]
    simp [String.append_assoc]

/-- C9 amended: `toText` concatenates each page's extracted text in page
order with no cross-page reflow, but the blank-line separator is appended
after every page including the last (a terminator after each page, not
only a separator between consecutive pages): the result for `t :: ts` is
`t ++ "\n\n"` followed by the conversion of the remaining pages, and the
empty document yields the empty string. -/
theorem pdf_to_text_terminator :
    pdf_to_text [] = "" ∧
    ∀ (t : String) (ts : List String),
      pdf_to_text (t :: ts) = t ++ "\n\n" ++ pdf_to_text ts := by
  refine ⟨rfl, fun t ts => ?_⟩
  unfold pdf_to_text
  simp only [List.foldl]
  rw [pdf_to_text_foldl ("" ++ t ++ "\n\n"), String.empty_append]

end PdfService
